import Mathlib

/-!
Verification of the headr utility (a head reimplementation in Rust).
The definitions below are a shallow embedding of src/headr/src/lib.rs:
sources are modelled as byte lists, the filesystem as a map from source
names to source states, and the run function as a fold over the
configured source list that threads standard output, standard error and
the overall result.
-/

namespace Headr

/-- State of a named source as the open and read calls see it:
it fails to open with a cause, or it opens and yields a byte content,
or it opens but the first read fails with a cause. -/
inductive Src where
  | openErr (cause : String)
  | good (content : List Nat)
  | readErr (cause : String)

/-- Config from lib.rs: file list, line count, optional byte count. -/
structure Config where
  files : List String
  lines : Nat
  bytes : Option Nat

/-- Output of a whole run: bytes written to standard output, diagnostic
lines written to standard error, and the value run returns. -/
@[ext]
structure RunOut where
  stdout : List Nat
  stderr : List String
  result : Except String Unit

/- ---------- UTF-8 encoding of Lean strings into byte lists ---------- -/

/-- UTF-8 encoding of one scalar value. -/
def utf8EncodeChar (c : Char) : List Nat :=
  let n := c.toNat
  if n < 0x80 then [n]
  else if n < 0x800 then [0xC0 + n / 64, 0x80 + n % 64]
  else if n < 0x10000 then
    [0xE0 + n / 4096, 0x80 + (n / 64) % 64, 0x80 + n % 64]
  else
    [0xF0 + n / 262144, 0x80 + (n / 4096) % 64, 0x80 + (n / 64) % 64,
      0x80 + n % 64]

/-- Byte list of the UTF-8 encoding of a string. -/
def strBytes (s : String) : List Nat :=
  (s.data.map utf8EncodeChar).flatten

/- ---------- UTF-8 validation and lossy decoding ---------- -/

/-- Replacement character U+FFFD as UTF-8 bytes. -/
def repl : List Nat := [0xEF, 0xBF, 0xBD]

/-- Continuation byte test, 0x80 to 0xBF. -/
def contOk (b : Nat) : Bool := decide (0x80 ≤ b) && decide (b < 0xC0)

/-- Constraint on the second byte of a multibyte sequence, which depends
on the first byte (surrogate and overlong exclusions as in core rust). -/
def cont2Ok (first b : Nat) : Bool :=
  if first = 0xE0 then decide (0xA0 ≤ b) && decide (b < 0xC0)
  else if first = 0xED then decide (0x80 ≤ b) && decide (b < 0xA0)
  else if first = 0xF0 then decide (0x90 ≤ b) && decide (b < 0xC0)
  else if first = 0xF4 then decide (0x80 ≤ b) && decide (b < 0x90)
  else contOk b

/-- One decoding step of from_utf8_lossy: how many input bytes the first
unit consumes (the maximal subpart on an invalid sequence), what bytes it
emits, and whether the unit was a valid character. -/
structure Utf8Unit where
  consumed : Nat
  emit : List Nat
  ok : Bool

/-- Decode one unit starting at byte b with the remaining bytes rest. -/
def utf8Unit (b : Nat) (rest : List Nat) : Utf8Unit :=
  if b < 0x80 then ⟨1, [b], true⟩
  else if b < 0xC2 then ⟨1, repl, false⟩
  else if b < 0xE0 then
    match rest with
    | b1 :: _ => if contOk b1 then ⟨2, [b, b1], true⟩ else ⟨1, repl, false⟩
    | [] => ⟨1, repl, false⟩
  else if b < 0xF0 then
    match rest with
    | b1 :: rest1 =>
      if cont2Ok b b1 then
        match rest1 with
        | b2 :: _ =>
          if contOk b2 then ⟨3, [b, b1, b2], true⟩ else ⟨2, repl, false⟩
        | [] => ⟨2, repl, false⟩
      else ⟨1, repl, false⟩
    | [] => ⟨1, repl, false⟩
  else if b < 0xF5 then
    match rest with
    | b1 :: rest1 =>
      if cont2Ok b b1 then
        match rest1 with
        | b2 :: rest2 =>
          if contOk b2 then
            match rest2 with
            | b3 :: _ =>
              if contOk b3 then ⟨4, [b, b1, b2, b3], true⟩
              else ⟨3, repl, false⟩
            | [] => ⟨3, repl, false⟩
          else ⟨2, repl, false⟩
        | [] => ⟨2, repl, false⟩
      else ⟨1, repl, false⟩
    | [] => ⟨1, repl, false⟩
  else ⟨1, repl, false⟩

/-- Fuel driven UTF-8 validity test; the fuel is an upper bound on the
number of units, one byte each at least, so length many suffices. -/
def isValidUtf8Go : Nat → List Nat → Bool
  | _, [] => true
  | 0, _ :: _ => false
  | fuel + 1, b :: rest =>
    let u := utf8Unit b rest
    u.ok && isValidUtf8Go fuel (rest.drop (u.consumed - 1))

/-- UTF-8 validity of a byte list, as str from_utf8 checks it. -/
def isValidUtf8 (bs : List Nat) : Bool := isValidUtf8Go bs.length bs

/-- Fuel driven lossy decoder; emits replacement bytes for each maximal
invalid subpart, as String from_utf8_lossy does. -/
def utf8LossyGo : Nat → List Nat → List Nat
  | _, [] => []
  | 0, _ :: _ => []
  | fuel + 1, b :: rest =>
    let u := utf8Unit b rest
    u.emit ++ utf8LossyGo fuel (rest.drop (u.consumed - 1))

/-- Lossy UTF-8 decoding of a byte list, result again as UTF-8 bytes. -/
def utf8Lossy (bs : List Nat) : List Nat := utf8LossyGo bs.length bs

/- ---------- line reading ---------- -/

/-- One read_line call on a buffered reader holding bs: the returned
chunk up to and including the first newline byte 10 (or all of bs when
bs holds no newline), and the bytes left in the reader. -/
def readLineChunk : List Nat → List Nat × List Nat
  | [] => ([], [])
  | b :: rest =>
    if b = 10 then ([10], rest)
    else
      let p := readLineChunk rest
      (b :: p.1, p.2)

/-- Fuel driven split of a byte list into read_line chunks. -/
def splitLinesGo : Nat → List Nat → List (List Nat)
  | _, [] => []
  | 0, _ :: _ => []
  | fuel + 1, b :: rest =>
    let p := readLineChunk (b :: rest)
    p.1 :: splitLinesGo fuel p.2

/-- All read_line chunks of a byte list, in order; every chunk except
possibly the last ends with the newline byte 10. -/
def splitLines (bs : List Nat) : List (List Nat) := splitLinesGo bs.length bs

/-- Chunk ends with a newline byte. -/
def endsWithNl (l : List Nat) : Bool := decide (l.getLast? = some 10)

/-- Line mode loop of run: up to n read_line calls, stopping at a read
of zero bytes, printing each chunk as read; read_line fails when the
chunk read is not valid UTF-8, in which case the output so far stands
and the error is returned for propagation. -/
def headLines : Nat → List Nat → List Nat × Option String
  | 0, _ => ([], none)
  | _ + 1, [] => ([], none)
  | n + 1, b :: rest =>
    let p := readLineChunk (b :: rest)
    if isValidUtf8 p.1 then
      let r := headLines n p.2
      (p.1 ++ r.1, r.2)
    else ([], some "stream did not contain valid UTF-8")

/- ---------- the run function ---------- -/

/-- Header line printed before a source when more than one source is
configured: a blank line precedes it exactly when the source index is
positive (the if on file_num in run). -/
def headerOf (numFiles fileNum : Nat) (filename : String) : List Nat :=
  if numFiles > 1 then
    strBytes ((if fileNum > 0 then "\n" else "") ++ "==> " ++ filename ++ " <==\n")
  else []

/-- Processing of one source by run: standard output bytes, standard
error lines, and an optional fatal error that aborts the whole run.
An open failure turns into one diagnostic line and no fatal error; a
good source prints the optional header and then the byte mode or line
mode truncation; a read failure prints the header and then aborts. -/
def processSrc (cfg : Config) (numFiles fileNum : Nat) (filename : String)
    (s : Src) : List Nat × List String × Option String :=
  match s with
  | .openErr cause => ([], [filename ++ ": " ++ cause], none)
  | .readErr cause => (headerOf numFiles fileNum filename, [], some cause)
  | .good content =>
    let hdr := headerOf numFiles fileNum filename
    match cfg.bytes with
    | some n => (hdr ++ utf8Lossy (content.take n), [], none)
    | none =>
      let r := headLines cfg.lines content
      (hdr ++ r.1, [], r.2)

/-- Loop of run over the remaining sources, starting at index i; a fatal
error stops the loop, keeping the output already produced. -/
def runLoop (fs : String → Src) (cfg : Config) (nf : Nat) :
    Nat → List String → RunOut
  | _, [] => ⟨[], [], Except.ok ()⟩
  | i, f :: rest =>
    let p := processSrc cfg nf i f (fs f)
    match p.2.2 with
    | some e => ⟨p.1, p.2.1, Except.error e⟩
    | none =>
      let r := runLoop fs cfg nf (i + 1) rest
      ⟨p.1 ++ r.stdout, p.2.1 ++ r.stderr, r.result⟩

/-- The run function of lib.rs over a filesystem fs. -/
def run (fs : String → Src) (cfg : Config) : RunOut :=
  runLoop fs cfg cfg.files.length 0 cfg.files

/- ---------- positive integer parsing ---------- -/

/-- ASCII digit test. -/
def isAsciiDigit (c : Char) : Bool := decide (48 ≤ c.toNat) && decide (c.toNat ≤ 57)

/-- Numeric value of one ASCII digit. -/
def digitVal (c : Char) : Nat := c.toNat - 48

/-- Base 10 value of a digit list. -/
def digitsVal (ds : List Char) : Nat :=
  ds.foldl (fun acc c => acc * 10 + digitVal c) 0

/-- The parse call of the rust standard library at type usize: an
optional leading plus sign, then one or more ASCII digits, and the
value must fit in 64 bits; anything else fails. -/
def rustParseUsize (s : String) : Option Nat :=
  let ds := match s.data with
            | '+' :: rest => rest
            | other => other
  if ds = [] then none
  else if ds.all isAsciiDigit then
    if digitsVal ds < 2 ^ 64 then some (digitsVal ds) else none
  else none

/-- The parse_positive_int function of lib.rs: accept a parsed value
strictly above zero, otherwise fail carrying the token itself. -/
def parse_positive_int (val : String) : Except String Nat :=
  match rustParseUsize val with
  | some num => if num > 0 then Except.ok num else Except.error val
  | none => Except.error val

/- ---------- argument parsing ---------- -/

/-- Raw command line as the argument facility hands it over: positional
file names, and the textual values of the lines and bytes flags when the
user supplied them. -/
structure RawArgs where
  files : List String
  linesArg : Option String
  bytesArg : Option String

/-- Modelled from the spec: the conflict enforcement of the argument
facility (the conflicts_with declaration on the bytes flag in lib.rs is
enforced inside the clap crate, outside this repository), which rejects
a command line supplying both flags before any value is examined and
before any file input or output occurs. The remaining branches follow
get_args in lib.rs: the lines value defaults to the token 10 and is
parsed by parse_positive_int with errors reworded as an illegal line
count, the bytes value is optional and parsed the same way as an
illegal byte count, and the file list defaults to the single dash. -/
def get_args (raw : RawArgs) : Except String Config :=
  if raw.linesArg.isSome && raw.bytesArg.isSome then
    Except.error "the argument --lines cannot be used with --bytes"
  else
    match parse_positive_int (raw.linesArg.getD "10") with
    | Except.error e => Except.error ("illegal line count -- " ++ e)
    | Except.ok lines =>
      match raw.bytesArg with
      | none =>
        Except.ok ⟨if raw.files = [] then ["-"] else raw.files, lines, none⟩
      | some btok =>
        match parse_positive_int btok with
        | Except.error e => Except.error ("illegal byte count -- " ++ e)
        | Except.ok b =>
          Except.ok ⟨if raw.files = [] then ["-"] else raw.files, lines, some b⟩

/- ---------- reference output shapes ---------- -/

/-- Truncated body run prints for a good source under cfg. -/
def bodyOf (cfg : Config) (content : List Nat) : List Nat :=
  match cfg.bytes with
  | some n => utf8Lossy (content.take n)
  | none => ((splitLines content).take cfg.lines).flatten

/-- Expected standard output for a list of sources starting at index i,
assuming no fatal error occurs: open failures print nothing, good
sources print their header and truncated body. -/
def expectedOut (fs : String → Src) (cfg : Config) (nf : Nat) :
    Nat → List String → List Nat
  | _, [] => []
  | i, f :: rest =>
    (match fs f with
     | .openErr _ => []
     | .readErr _ => []
     | .good c => headerOf nf i f ++ bodyOf cfg c) ++
      expectedOut fs cfg nf (i + 1) rest

/-- Expected standard error lines: one diagnostic per open failure. -/
def expectedErr (fs : String → Src) : List String → List String
  | [] => []
  | f :: rest =>
    (match fs f with
     | .openErr cause => [f ++ ": " ++ cause]
     | _ => []) ++ expectedErr fs rest

/-- Source states that never raise a fatal error under cfg: open
failures are recovered, and a good source must not trip the UTF-8
check of read_line when line mode is active. -/
def srcOk (cfg : Config) (s : Src) : Bool :=
  match s with
  | .openErr _ => true
  | .readErr _ => false
  | .good c => cfg.bytes.isSome || (splitLines c).all isValidUtf8

/- ---------- concrete fixtures ---------- -/

/-- Single source holding four newline terminated lines. -/
def fsLines : String → Src := fun _ => Src.good (strBytes "a\nb\nc\nd\n")

/-- Line mode config asking for three lines of one source. -/
def cfgLines : Config := ⟨["f"], 3, none⟩

/-- Single source holding hello world. -/
def fsHello : String → Src := fun _ => Src.good (strBytes "hello world")

/-- Byte mode config asking for five bytes of one source. -/
def cfgHello : Config := ⟨["f"], 10, some 5⟩

/-- Source dir opens but fails on the first read; other names hold one
line each. -/
def fsDir : String → Src := fun s =>
  if s = "dir" then Src.readErr "Is a directory (os error 21)"
  else Src.good (strBytes "x\n")

/-- Two source line mode config naming dir first. -/
def cfgDir : Config := ⟨["dir", "ok"], 10, none⟩

/-- Source fileA fails to open; other names hold one line. -/
def fsAB : String → Src := fun s =>
  if s = "fileA" then Src.openErr "No such file or directory (os error 2)"
  else Src.good (strBytes "b\n")

/-- Two source line mode config naming fileA then fileB. -/
def cfgAB : Config := ⟨["fileA", "fileB"], 10, none⟩

/-- Two good sources for the header layout witness. -/
def fsGood2 : String → Src := fun s =>
  if s = "fileA" then Src.good (strBytes "a\n") else Src.good (strBytes "b\n")

/-- Short single source of two lines. -/
def fsShort : String → Src := fun _ => Src.good (strBytes "a\nb\n")

/-- Line mode config asking for ten lines of one source. -/
def cfgShort : Config := ⟨["f"], 10, none⟩

/-- Source good1 is readable, dir fails on its first read, any other
name is readable as well. -/
def fsPre : String → Src := fun s =>
  if s = "good1" then Src.good (strBytes "p\n")
  else if s = "dir" then Src.readErr "Is a directory (os error 21)"
  else Src.good (strBytes "t\n")

/-- Three source config: a good source, then dir, then another. -/
def cfgPre : Config := ⟨["good1", "dir", "tail1"], 10, none⟩

/- ---------- lemmas about line reading ---------- -/

theorem readLineChunk_nl (rest : List Nat) :
    readLineChunk (10 :: rest) = ([10], rest) := by
  simp [readLineChunk]

theorem readLineChunk_cons_ne (b : Nat) (rest : List Nat) (hb : b ≠ 10) :
    readLineChunk (b :: rest) =
      (b :: (readLineChunk rest).1, (readLineChunk rest).2) := by
  simp [readLineChunk, hb]

theorem splitLinesGo_nil (fuel : Nat) : splitLinesGo fuel [] = [] := by
  cases fuel <;> rfl

theorem utf8LossyGo_nil (fuel : Nat) : utf8LossyGo fuel [] = [] := by
  cases fuel <;> rfl

theorem isValidUtf8Go_nil (fuel : Nat) : isValidUtf8Go fuel [] = true := by
  cases fuel <;> rfl

theorem readLineChunk_append (bs : List Nat) :
    (readLineChunk bs).1 ++ (readLineChunk bs).2 = bs := by
  induction bs with
  | nil => rfl
  | cons b rest ih =>
    by_cases h : b = 10
    · simp [readLineChunk, h]
    · simp [readLineChunk, h, ih]

theorem readLineChunk_rest_le (bs : List Nat) :
    (readLineChunk bs).2.length ≤ bs.length := by
  induction bs with
  | nil => simp [readLineChunk]
  | cons b rest ih =>
    by_cases h : b = 10
    · simp [readLineChunk, h]
    · simp only [readLineChunk, if_neg h]
      exact Nat.le_succ_of_le ih

theorem readLineChunk_rest_le_cons (b : Nat) (rest : List Nat) :
    (readLineChunk (b :: rest)).2.length ≤ rest.length := by
  by_cases h : b = 10
  · simp [readLineChunk, h]
  · simp only [readLineChunk, if_neg h]
    exact readLineChunk_rest_le rest

theorem readLineChunk_fst_ne_nil (bs : List Nat) (h : bs ≠ []) :
    (readLineChunk bs).1 ≠ [] := by
  cases bs with
  | nil => exact absurd rfl h
  | cons b rest =>
    by_cases hb : b = 10 <;> simp [readLineChunk, hb]

theorem readLineChunk_rest_nil : ∀ bs : List Nat, bs ≠ [] →
    endsWithNl (readLineChunk bs).1 = false → (readLineChunk bs).2 = []
  | [], h, _ => absurd rfl h
  | b :: rest, _, hnl => by
    by_cases hb : b = 10
    · subst hb
      simp [readLineChunk_nl, endsWithNl] at hnl
    · rw [readLineChunk_cons_ne b rest hb] at hnl ⊢
      cases rest with
      | nil => simp [readLineChunk]
      | cons c rest' =>
        have hne := readLineChunk_fst_ne_nil (c :: rest') (by simp)
        have htail : endsWithNl (readLineChunk (c :: rest')).1 = false := by
          rcases hq : (readLineChunk (c :: rest')).1 with _ | ⟨x, xs⟩
          · exact absurd hq hne
          · rw [hq] at hnl
            simpa [endsWithNl, List.getLast?_cons_cons] using hnl
        exact readLineChunk_rest_nil (c :: rest') (by simp) htail

theorem splitLinesGo_flatten : ∀ (fuel : Nat) (bs : List Nat),
    bs.length ≤ fuel → (splitLinesGo fuel bs).flatten = bs
  | fuel, [], _ => by simp [splitLinesGo_nil]
  | 0, _ :: _, h => absurd h (by simp)
  | fuel + 1, b :: rest, h => by
    have hle : (readLineChunk (b :: rest)).2.length ≤ fuel :=
      le_trans (readLineChunk_rest_le_cons b rest) (by simpa using h)
    simp [splitLinesGo, splitLinesGo_flatten fuel _ hle, readLineChunk_append]

theorem splitLines_flatten (bs : List Nat) : (splitLines bs).flatten = bs :=
  splitLinesGo_flatten bs.length bs le_rfl

theorem headLines_go_eq : ∀ (n fuel : Nat) (bs : List Nat), bs.length ≤ fuel →
    (∀ l ∈ (splitLinesGo fuel bs).take n, isValidUtf8 l = true) →
    headLines n bs = (((splitLinesGo fuel bs).take n).flatten, none)
  | 0, _, bs, _, _ => by simp [headLines]
  | n + 1, fuel, [], _, _ => by
    cases fuel <;> simp [headLines, splitLinesGo]
  | n + 1, 0, b :: rest, h, _ => absurd h (by simp)
  | n + 1, fuel + 1, b :: rest, h, hv => by
    have hle : (readLineChunk (b :: rest)).2.length ≤ fuel :=
      le_trans (readLineChunk_rest_le_cons b rest) (by simpa using h)
    have hvhead : isValidUtf8 (readLineChunk (b :: rest)).1 = true := by
      apply hv
      simp [splitLinesGo]
    have hvtail : ∀ l ∈ (splitLinesGo fuel (readLineChunk (b :: rest)).2).take n,
        isValidUtf8 l = true := by
      intro l hl
      apply hv
      simp only [splitLinesGo, List.take_succ_cons, List.mem_cons]
      exact Or.inr hl
    have ih := headLines_go_eq n fuel (readLineChunk (b :: rest)).2 hle hvtail
    simp [headLines, splitLinesGo, hvhead, ih]

theorem headLines_eq (n : Nat) (bs : List Nat)
    (hv : ∀ l ∈ (splitLines bs).take n, isValidUtf8 l = true) :
    headLines n bs = (((splitLines bs).take n).flatten, none) :=
  headLines_go_eq n bs.length bs le_rfl hv

theorem splitLinesGo_term : ∀ (fuel : Nat) (bs : List Nat) (n : Nat),
    bs.length ≤ fuel →
    n ≤ (splitLinesGo fuel bs).countP endsWithNl →
    (∀ l ∈ (splitLinesGo fuel bs).take n, endsWithNl l = true) ∧
      n ≤ (splitLinesGo fuel bs).length
  | _, [], n, _, hn => by
    simp only [splitLinesGo] at hn ⊢
    simp at hn
    simp [hn]
  | 0, _ :: _, _, h, _ => absurd h (by simp)
  | fuel + 1, b :: rest, n, h, hn => by
    have hle : (readLineChunk (b :: rest)).2.length ≤ fuel :=
      le_trans (readLineChunk_rest_le_cons b rest) (by simpa using h)
    by_cases hw : endsWithNl (readLineChunk (b :: rest)).1 = true
    · cases n with
      | zero => simp
      | succ m =>
        have hn' : m ≤ (splitLinesGo fuel (readLineChunk (b :: rest)).2).countP endsWithNl := by
          simp only [splitLinesGo, List.countP_cons, hw, if_true] at hn
          omega
        have ih := splitLinesGo_term fuel (readLineChunk (b :: rest)).2 m hle hn'
        constructor
        · intro l hl
          simp only [splitLinesGo, List.take_succ_cons, List.mem_cons] at hl
          rcases hl with rfl | hl
          · exact hw
          · exact ih.1 l hl
        · simp only [splitLinesGo, List.length_cons]
          omega
    · have hfalse : endsWithNl (readLineChunk (b :: rest)).1 = false := by
        simpa using hw
      have hnil := readLineChunk_rest_nil (b :: rest) (by simp) hfalse
      have hzero : n = 0 := by
        simp only [splitLinesGo, hnil, List.countP_cons, hfalse] at hn
        cases fuel <;> simp [splitLinesGo] at hn <;> omega
      simp [hzero]

/- ---------- lemmas about UTF-8 decoding ---------- -/

theorem utf8Unit_ok_append (b : Nat) (rest : List Nat)
    (h : (utf8Unit b rest).ok = true) :
    (utf8Unit b rest).emit ++ rest.drop ((utf8Unit b rest).consumed - 1) =
      b :: rest := by
  rcases rest with _ | ⟨b1, _ | ⟨b2, _ | ⟨b3, rest3⟩⟩⟩ <;>
    · simp only [utf8Unit] at h ⊢
      split_ifs at h ⊢ <;> simp_all [repl]

theorem utf8LossyGo_of_valid : ∀ (fuel : Nat) (bs : List Nat),
    bs.length ≤ fuel → isValidUtf8Go fuel bs = true → utf8LossyGo fuel bs = bs
  | fuel, [], _, _ => utf8LossyGo_nil fuel
  | 0, _ :: _, h, _ => absurd h (by simp)
  | fuel + 1, b :: rest, h, hv => by
    simp only [isValidUtf8Go, Bool.and_eq_true] at hv
    have hlen : (rest.drop ((utf8Unit b rest).consumed - 1)).length ≤ fuel := by
      simp only [List.length_drop]
      simp only [List.length_cons] at h
      omega
    simp only [utf8LossyGo]
    rw [utf8LossyGo_of_valid fuel _ hlen hv.2]
    exact utf8Unit_ok_append b rest hv.1

theorem utf8Lossy_of_valid (bs : List Nat) (h : isValidUtf8 bs = true) :
    utf8Lossy bs = bs :=
  utf8LossyGo_of_valid bs.length bs le_rfl h

theorem take_min_eq {α : Type} (n : Nat) (l : List α) :
    l.take (min n l.length) = l.take n := by
  rcases le_total n l.length with h | h
  · rw [Nat.min_eq_left h]
  · rw [Nat.min_eq_right h, List.take_of_length_le h, List.take_length]

/- ---------- lemmas about run ---------- -/

theorem runLoop_nil (fs : String → Src) (cfg : Config) (nf i : Nat) :
    runLoop fs cfg nf i [] = ⟨[], [], Except.ok ()⟩ := rfl

theorem runLoop_openErr (fs : String → Src) (cfg : Config) (nf i : Nat)
    (f : String) (rest : List String) (cause : String)
    (hsrc : fs f = Src.openErr cause) :
    runLoop fs cfg nf i (f :: rest) =
      ⟨(runLoop fs cfg nf (i + 1) rest).stdout,
       (f ++ ": " ++ cause) :: (runLoop fs cfg nf (i + 1) rest).stderr,
       (runLoop fs cfg nf (i + 1) rest).result⟩ := by
  simp [runLoop, processSrc, hsrc]

theorem runLoop_readErr (fs : String → Src) (cfg : Config) (nf i : Nat)
    (f : String) (rest : List String) (cause : String)
    (hsrc : fs f = Src.readErr cause) :
    runLoop fs cfg nf i (f :: rest) =
      ⟨headerOf nf i f, [], Except.error cause⟩ := by
  simp [runLoop, processSrc, hsrc]

theorem runLoop_good_bytes (fs : String → Src) (cfg : Config) (nf i : Nat)
    (f : String) (rest : List String) (c : List Nat) (n : Nat)
    (hsrc : fs f = Src.good c) (hb : cfg.bytes = some n) :
    runLoop fs cfg nf i (f :: rest) =
      ⟨(headerOf nf i f ++ utf8Lossy (c.take n)) ++
          (runLoop fs cfg nf (i + 1) rest).stdout,
       (runLoop fs cfg nf (i + 1) rest).stderr,
       (runLoop fs cfg nf (i + 1) rest).result⟩ := by
  simp [runLoop, processSrc, hsrc, hb]

theorem runLoop_good_lines (fs : String → Src) (cfg : Config) (nf i : Nat)
    (f : String) (rest : List String) (c : List Nat)
    (hsrc : fs f = Src.good c) (hb : cfg.bytes = none)
    (hv : ∀ l ∈ (splitLines c).take cfg.lines, isValidUtf8 l = true) :
    runLoop fs cfg nf i (f :: rest) =
      ⟨(headerOf nf i f ++ ((splitLines c).take cfg.lines).flatten) ++
          (runLoop fs cfg nf (i + 1) rest).stdout,
       (runLoop fs cfg nf (i + 1) rest).stderr,
       (runLoop fs cfg nf (i + 1) rest).result⟩ := by
  simp [runLoop, processSrc, hsrc, hb, headLines_eq _ _ hv]

theorem srcOk_good_lines (cfg : Config) (c : List Nat) (hb : cfg.bytes = none)
    (h : srcOk cfg (Src.good c) = true) :
    ∀ l ∈ splitLines c, isValidUtf8 l = true := by
  simp only [srcOk, hb, Option.isSome_none, Bool.false_or, List.all_eq_true] at h
  exact h

theorem runLoop_append (fs : String → Src) (cfg : Config) (nf : Nat)
    (tail : List String) : ∀ (pre : List String) (i : Nat),
    (∀ g ∈ pre, srcOk cfg (fs g) = true) →
    runLoop fs cfg nf i (pre ++ tail) =
      ⟨expectedOut fs cfg nf i pre ++ (runLoop fs cfg nf (i + pre.length) tail).stdout,
       expectedErr fs pre ++ (runLoop fs cfg nf (i + pre.length) tail).stderr,
       (runLoop fs cfg nf (i + pre.length) tail).result⟩
  | [], i, _ => by simp [expectedOut, expectedErr]
  | g :: pre', i, hok => by
    have hg := hok g (List.mem_cons_self g pre')
    have hrest : ∀ x ∈ pre', srcOk cfg (fs x) = true := fun x hx =>
      hok x (List.mem_cons_of_mem g hx)
    have ih := runLoop_append fs cfg nf tail pre' (i + 1) hrest
    have harith : i + (g :: pre').length = i + 1 + pre'.length := by
      simp only [List.length_cons]
      omega
    rw [List.cons_append, harith]
    cases hsrc : fs g with
    | openErr cause =>
      rw [runLoop_openErr fs cfg nf i g (pre' ++ tail) cause hsrc, ih]
      simp [expectedOut, expectedErr, hsrc]
    | readErr cause =>
      rw [hsrc] at hg
      simp [srcOk] at hg
    | good c =>
      cases hb : cfg.bytes with
      | some n =>
        rw [runLoop_good_bytes fs cfg nf i g (pre' ++ tail) c n hsrc hb, ih]
        simp [expectedOut, expectedErr, hsrc, bodyOf, hb, List.append_assoc]
      | none =>
        have hall := srcOk_good_lines cfg c hb (hsrc ▸ hg)
        have hv : ∀ l ∈ (splitLines c).take cfg.lines, isValidUtf8 l = true :=
          fun l hl => hall l (List.mem_of_mem_take hl)
        rw [runLoop_good_lines fs cfg nf i g (pre' ++ tail) c hsrc hb hv, ih]
        simp [expectedOut, expectedErr, hsrc, bodyOf, hb, List.append_assoc]

theorem run_ok (fs : String → Src) (cfg : Config)
    (hok : ∀ g ∈ cfg.files, srcOk cfg (fs g) = true) :
    run fs cfg = ⟨expectedOut fs cfg cfg.files.length 0 cfg.files,
                  expectedErr fs cfg.files, Except.ok ()⟩ := by
  have h := runLoop_append fs cfg cfg.files.length [] cfg.files 0 hok
  simpa [run, runLoop_nil] using h

/-- Helper: every open failure among the sources contributes its
diagnostic line to the expected error channel. -/
theorem mem_expectedErr (fs : String → Src) (files : List String)
    (f cause : String) (hmem : f ∈ files) (hsrc : fs f = Src.openErr cause) :
    (f ++ ": " ++ cause) ∈ expectedErr fs files := by
  induction files with
  | nil => cases hmem
  | cons g rest ih =>
    rcases List.mem_cons.mp hmem with rfl | hmem'
    · simp [expectedErr, hsrc]
    · cases hg : fs g <;> simp [expectedErr, hg, ih hmem']

/-- Helper: byte lists of string concatenations split accordingly. -/
theorem strBytes_append (a b : String) :
    strBytes (a ++ b) = strBytes a ++ strBytes b := by
  simp [strBytes, String.data_append]

/- ---------- claims ---------- -/

/-- C1: in line mode over a single source whose content holds at least
line count many newline terminated chunks (count taken over the
read_line chunks, which each must pass the UTF-8 check of read_line),
run writes exactly the first line count chunks to standard output, each
chunk keeping its trailing newline byte, with no diagnostic and a
successful result. -/
theorem line_mode_first_lines (fs : String → Src) (cfg : Config)
    (f : String) (content : List Nat)
    (hfiles : cfg.files = [f]) (hmode : cfg.bytes = none)
    (hsrc : fs f = Src.good content)
    (hv : ∀ l ∈ (splitLines content).take cfg.lines, isValidUtf8 l = true)
    (hcount : cfg.lines ≤ (splitLines content).countP endsWithNl) :
    (run fs cfg).stdout = ((splitLines content).take cfg.lines).flatten ∧
      (∀ l ∈ (splitLines content).take cfg.lines, endsWithNl l = true) ∧
      (run fs cfg).stderr = [] ∧ (run fs cfg).result = Except.ok () := by
  have hterm := splitLinesGo_term content.length content cfg.lines le_rfl hcount
  simp only [run, hfiles, List.length_cons, List.length_nil]
  rw [runLoop_good_lines fs cfg 1 0 f [] content hsrc hmode hv, runLoop_nil]
  refine ⟨?_, hterm.1, ?_, ?_⟩ <;> simp [headerOf]

/-- Witness for C1 at the spec example: line count three over the
content a, b, c, d of four newline terminated lines. -/
theorem line_mode_first_lines_witness :
    (run fsLines cfgLines).stdout = strBytes "a\nb\nc\n" ∧
      (run fsLines cfgLines).result = Except.ok () := by
  have h := line_mode_first_lines fsLines cfgLines "f" (strBytes "a\nb\nc\nd\n")
    rfl rfl rfl (by decide) (by decide)
  exact ⟨h.1.trans (by decide), h.2.2.2⟩

/-- C2: in byte mode over a single source, run writes exactly the lossy
UTF-8 decoding of the first min(byte count, content length) bytes of
the content to standard output, appends nothing, emits no diagnostic
and returns success. -/
theorem byte_mode_output (fs : String → Src) (cfg : Config) (f : String)
    (content : List Nat) (n : Nat)
    (hfiles : cfg.files = [f]) (hmode : cfg.bytes = some n)
    (hsrc : fs f = Src.good content) :
    (run fs cfg).stdout = utf8Lossy (content.take (min n content.length)) ∧
      (run fs cfg).stderr = [] ∧ (run fs cfg).result = Except.ok () := by
  simp only [run, hfiles, List.length_cons, List.length_nil]
  rw [runLoop_good_bytes fs cfg 1 0 f [] content n hsrc hmode, runLoop_nil]
  rw [take_min_eq]
  simp [headerOf]

/-- Witness for C2 at the spec example: byte count five over the
content hello world yields hello. -/
theorem byte_mode_output_witness :
    (run fsHello cfgHello).stdout = strBytes "hello" ∧
      (run fsHello cfgHello).result = Except.ok () := by
  have h := byte_mode_output fsHello cfgHello "f" (strBytes "hello world") 5
    rfl rfl rfl
  exact ⟨h.1.trans (by decide), h.2.2⟩

/-- C3: parse_positive_int succeeds with value n exactly when the
standard library parse of the token yields n with n positive; it fails
exactly when that parse fails or yields zero, and every failure carries
the original token unchanged. -/
theorem parse_positive_int_spec (t : String) :
    (∀ n, parse_positive_int t = Except.ok n ↔
        rustParseUsize t = some n ∧ 0 < n) ∧
      (parse_positive_int t = Except.error t ↔
        (rustParseUsize t = none ∨ rustParseUsize t = some 0)) ∧
      (∀ e, parse_positive_int t = Except.error e → e = t) := by
  refine ⟨fun n => ?_, ?_, fun e => ?_⟩
  · unfold parse_positive_int
    cases h : rustParseUsize t with
    | none => simp
    | some m => by_cases hm : m > 0 <;> simp [hm] <;> omega
  · unfold parse_positive_int
    cases h : rustParseUsize t with
    | none => simp
    | some m => by_cases hm : m > 0 <;> simp [hm] <;> omega
  · unfold parse_positive_int
    cases h : rustParseUsize t with
    | none =>
      simp only [Except.error.injEq]
      exact fun h' => h'.symm
    | some m =>
      by_cases hm : m > 0
      · simp [hm]
      · simp only [if_neg hm, Except.error.injEq]
        exact fun h' => h'.symm

/-- Witness for C3: zero is rejected carrying the token, and a plain
digit token parses to its value. -/
theorem parse_positive_int_spec_witness :
    parse_positive_int "0" = Except.error "0" ∧
      parse_positive_int "3" = Except.ok 3 := by
  constructor
  · exact (parse_positive_int_spec "0").2.1.mpr (Or.inr (by decide))
  · exact ((parse_positive_int_spec "3").1 3).mpr ⟨by decide, by decide⟩

/-- C4 counterexample: a source that opens and then fails on the first
read (as a directory does) aborts the whole run with the cause as a
fatal error: no diagnostic line is written for it and the following
source is never processed, against the claimed per source recovery. -/
theorem read_error_not_recovered_cex :
    (run fsDir cfgDir).result = Except.error "Is a directory (os error 21)" ∧
      (run fsDir cfgDir).stderr = [] ∧
      (run fsDir cfgDir).stdout = strBytes "==> dir <==\n" := by
  refine ⟨rfl, by decide, by decide⟩

/-- C4 amended: an error while reading after a successful open is not
recovered at the per source level: run aborts at that source, returning
the cause as a fatal error; no diagnostic for it reaches the error
channel (which holds exactly the diagnostics of the earlier sources)
and the sources after it are not processed, standard output ending with
the header of the failing source. -/
theorem read_error_fatal (fs : String → Src) (cfg : Config)
    (pre rest : List String) (f cause : String)
    (hfiles : cfg.files = pre ++ f :: rest)
    (hpre : ∀ g ∈ pre, srcOk cfg (fs g) = true)
    (hf : fs f = Src.readErr cause) :
    (run fs cfg).result = Except.error cause ∧
      (run fs cfg).stderr = expectedErr fs pre ∧
      (run fs cfg).stdout =
        expectedOut fs cfg cfg.files.length 0 pre ++
          headerOf cfg.files.length pre.length f := by
  have h := runLoop_append fs cfg cfg.files.length (f :: rest) pre 0 hpre
  rw [runLoop_readErr fs cfg cfg.files.length (0 + pre.length) f rest cause hf] at h
  unfold run
  rw [hfiles] at h ⊢
  rw [h]
  simp

/-- Witness for C4 amended: a good source, then a read failing source,
then a further source that is never reached. -/
theorem read_error_fatal_witness :
    (run fsPre cfgPre).result = Except.error "Is a directory (os error 21)" ∧
      (run fsPre cfgPre).stderr = [] ∧
      (run fsPre cfgPre).stdout = strBytes "==> good1 <==\np\n\n==> dir <==\n" := by
  have h := read_error_fatal fsPre cfgPre ["good1"] ["tail1"] "dir"
    "Is a directory (os error 21)" rfl (by decide) rfl
  exact ⟨h.1, h.2.1.trans (by decide), h.2.2.trans (by decide)⟩

/-- C5 counterexample: when the first of two sources fails to open, the
first header actually emitted (the one of the second source) is still
preceded by a blank line, so standard output begins with a newline
byte, against the claim that no blank line precedes the very first
header emitted. -/
theorem header_blank_line_cex :
    (run fsAB cfgAB).stdout = strBytes "\n==> fileB <==\nb\n" ∧
      (run fsAB cfgAB).stdout.head? = some 10 ∧
      (run fsAB cfgAB).stderr =
        ["fileA: No such file or directory (os error 2)"] ∧
      (run fsAB cfgAB).result = Except.ok () := by
  refine ⟨by decide, by decide, by decide, rfl⟩

/-- C5 amended: with more than one source configured and no fatal read
error, every processed source gets its header line, and a blank line
precedes a header exactly when the index of its source in the list is
positive, regardless of whether any earlier source produced output: the
header of the source at index zero has no leading blank line, every
header at a positive index has exactly one. -/
theorem header_blank_by_index (fs : String → Src) (cfg : Config)
    (hmany : 1 < cfg.files.length)
    (hok : ∀ g ∈ cfg.files, srcOk cfg (fs g) = true) :
    (run fs cfg).stdout = expectedOut fs cfg cfg.files.length 0 cfg.files ∧
      (∀ f : String, headerOf cfg.files.length 0 f =
        strBytes ("==> " ++ f ++ " <==\n")) ∧
      (∀ (i : Nat) (f : String), 0 < i → headerOf cfg.files.length i f =
        strBytes ("\n==> " ++ f ++ " <==\n")) := by
  refine ⟨by rw [run_ok fs cfg hok], fun f => ?_, fun i f hi => ?_⟩
  · simp only [headerOf, if_pos hmany]
    rw [strBytes_append, strBytes_append, strBytes_append, strBytes_append]
    simp [strBytes]
  · simp only [headerOf, if_pos hmany, if_pos hi, strBytes_append]
    rw [show strBytes "\n==> " = strBytes "\n" ++ strBytes "==> " from rfl,
      List.append_assoc]

/-- Witness for C5 amended: two good sources, header of the first with
no blank line, header of the second preceded by one blank line. -/
theorem header_blank_by_index_witness :
    (run fsGood2 cfgAB).stdout =
      strBytes "==> fileA <==\na\n\n==> fileB <==\nb\n" := by
  have h := header_blank_by_index fsGood2 cfgAB (by decide) (by decide)
  exact h.1.trans (by decide)

/-- C6: when every configured source opens or at worst fails at open
time, run reports one diagnostic line, source name colon cause, for
each open failure, still writes every good source in full (header plus
truncated body, in list order) to standard output, and returns overall
success. -/
theorem open_error_isolated (fs : String → Src) (cfg : Config)
    (hok : ∀ g ∈ cfg.files, srcOk cfg (fs g) = true) :
    run fs cfg = ⟨expectedOut fs cfg cfg.files.length 0 cfg.files,
        expectedErr fs cfg.files, Except.ok ()⟩ ∧
      ∀ f cause, f ∈ cfg.files → fs f = Src.openErr cause →
        (f ++ ": " ++ cause) ∈ expectedErr fs cfg.files := by
  exact ⟨run_ok fs cfg hok,
    fun f cause hmem hsrc => mem_expectedErr fs cfg.files f cause hmem hsrc⟩

/-- Witness for C6: fileA does not exist, fileB is still written in
full and the run succeeds. -/
theorem open_error_isolated_witness :
    (run fsAB cfgAB).stderr =
        ["fileA: No such file or directory (os error 2)"] ∧
      (run fsAB cfgAB).stdout = strBytes "\n==> fileB <==\nb\n" ∧
      (run fsAB cfgAB).result = Except.ok () := by
  have h := open_error_isolated fsAB cfgAB (by decide)
  rw [h.1]
  exact ⟨by decide, by decide, rfl⟩

/-- C7: a single source shorter than the requested count (fewer chunks
than the line count in line mode, or at most byte count many bytes in
byte mode, the content passing the UTF-8 checks of the respective
mode) is emitted in full, with nothing added and no error raised. -/
theorem short_source_full_content (fs : String → Src) (cfg : Config)
    (f : String) (content : List Nat)
    (hfiles : cfg.files = [f]) (hsrc : fs f = Src.good content)
    (hshort : (cfg.bytes = none ∧ (splitLines content).length ≤ cfg.lines ∧
        (∀ l ∈ splitLines content, isValidUtf8 l = true)) ∨
      (∃ n, cfg.bytes = some n ∧ content.length ≤ n ∧
        isValidUtf8 content = true)) :
    (run fs cfg).stdout = content ∧ (run fs cfg).stderr = [] ∧
      (run fs cfg).result = Except.ok () := by
  rcases hshort with ⟨hb, hlen, hv⟩ | ⟨n, hb, hlen, hv⟩
  · have hv' : ∀ l ∈ (splitLines content).take cfg.lines, isValidUtf8 l = true :=
      fun l hl => hv l (List.mem_of_mem_take hl)
    simp only [run, hfiles, List.length_cons, List.length_nil]
    rw [runLoop_good_lines fs cfg 1 0 f [] content hsrc hb hv', runLoop_nil]
    rw [List.take_of_length_le hlen]
    simp [headerOf, splitLines_flatten]
  · simp only [run, hfiles, List.length_cons, List.length_nil]
    rw [runLoop_good_bytes fs cfg 1 0 f [] content n hsrc hb, runLoop_nil]
    rw [List.take_of_length_le hlen, utf8Lossy_of_valid content hv]
    simp [headerOf]

/-- Witness for C7 at the spec example: two lines available against a
line count of ten. -/
theorem short_source_full_content_witness :
    (run fsShort cfgShort).stdout = strBytes "a\nb\n" ∧
      (run fsShort cfgShort).stderr = [] ∧
      (run fsShort cfgShort).result = Except.ok () :=
  short_source_full_content fsShort cfgShort "f" (strBytes "a\nb\n")
    rfl rfl (Or.inl ⟨rfl, by decide, by decide⟩)

/-- Helper for C8: the loop never reads the line count when a byte
count is present. -/
theorem runLoop_bytes_ignores_lines (fs : String → Src) (files0 : List String)
    (l1 l2 n nf : Nat) : ∀ (xs : List String) (i : Nat),
    runLoop fs ⟨files0, l1, some n⟩ nf i xs =
      runLoop fs ⟨files0, l2, some n⟩ nf i xs
  | [], _ => rfl
  | f :: rest, i => by
    cases hsrc : fs f with
    | openErr cause =>
      rw [runLoop_openErr fs _ nf i f rest cause hsrc,
        runLoop_openErr fs _ nf i f rest cause hsrc,
        runLoop_bytes_ignores_lines fs files0 l1 l2 n nf rest (i + 1)]
    | readErr cause =>
      rw [runLoop_readErr fs _ nf i f rest cause hsrc,
        runLoop_readErr fs _ nf i f rest cause hsrc]
    | good c =>
      rw [runLoop_good_bytes fs _ nf i f rest c n hsrc rfl,
        runLoop_good_bytes fs _ nf i f rest c n hsrc rfl,
        runLoop_bytes_ignores_lines fs files0 l1 l2 n nf rest (i + 1)]

/-- C8: whenever a byte count is present, run is in byte mode and its
whole output (standard output, diagnostics and result) is the same for
every value of the line count. -/
theorem bytes_mode_ignores_lines (fs : String → Src) (files0 : List String)
    (n l1 l2 : Nat) :
    run fs ⟨files0, l1, some n⟩ = run fs ⟨files0, l2, some n⟩ :=
  runLoop_bytes_ignores_lines fs files0 l1 l2 n files0.length files0 0

/-- C9: supplying both the lines flag and the bytes flag is rejected by
the configuration step with the conflict error; get_args consumes only
the raw command line and takes no filesystem, so the failure happens
before any source is opened and before any file input or output. -/
theorem conflicting_flags_rejected (raw : RawArgs) (l b : String)
    (hl : raw.linesArg = some l) (hb : raw.bytesArg = some b) :
    get_args raw =
      Except.error "the argument --lines cannot be used with --bytes" := by
  simp [get_args, hl, hb]

/-- Witness for C9: lines five and bytes five together are rejected. -/
theorem conflicting_flags_rejected_witness :
    get_args ⟨[], some "5", some "5"⟩ =
      Except.error "the argument --lines cannot be used with --bytes" :=
  conflicting_flags_rejected ⟨[], some "5", some "5"⟩ "5" "5" rfl rfl

/-- C10: parse_positive_int accepts a leading plus sign: a token made
of a plus sign followed by ASCII digits, of positive value below 2 to
the 64, parses to that value even though it is not a plain digit
string. -/
theorem plus_sign_accepted (s : String) (ds : List Char)
    (hdata : s.data = '+' :: ds) (hne : ds ≠ [])
    (hdig : ds.all isAsciiDigit = true)
    (hpos : 0 < digitsVal ds) (hbound : digitsVal ds < 2 ^ 64) :
    parse_positive_int s = Except.ok (digitsVal ds) := by
  unfold parse_positive_int rustParseUsize
  rw [hdata]
  have h64 : (2 : Nat) ^ 64 = 18446744073709551616 := by norm_num
  rw [h64] at hbound
  simp [hne, hdig, hbound, hpos]

/-- Witness for C10: the token plus three parses to three. -/
theorem plus_sign_accepted_witness : parse_positive_int "+3" = Except.ok 3 :=
  plus_sign_accepted "+3" ['3'] (by decide) (by decide) (by decide)
    (by decide) (by decide)

end Headr
